import Mathlib

/-!
# go.ebiten: the license extractor (`internal/license.go`) and the event catalog (`event/event.go`)

A shallow embedding of the two source files.

* Go strings are byte sequences: `GoString := List UInt8`.  The bytes the code inspects
  (`'\n'`, the pattern `// Copyright `, the digits) are ASCII, so no decoding is involved.
* A Go call either returns or panics: `Outcome`.
* A Go `(value, error)` result is a pair whose second component is `Option GoError`
  (`none` is `nil`).
* `ioutil.ReadFile(licensePath)` is the environment of `LicenseComment`: its result
  `(l, err)` is the argument of the embedded function.
* Unsigned 64-bit and signed 64-bit arithmetic of `strconv` is written over `Nat`/`Int`
  with explicit wrap-around.
-/

set_option maxRecDepth 100000

namespace internal

/-! ## Go values -/

abbrev Byte := UInt8

abbrev GoString := List Byte

/-- The bytes of a string literal. -/
def str (s : String) : GoString := s.toUTF8.data.toList

/-- The byte `'\n'`. -/
def nl : Byte := 10

/-- The two sentinel errors of `strconv`. -/
inductive NumErr where
  | ErrSyntax
  | ErrRange
deriving DecidableEq

/-- Go error values: an I/O error coming from `ioutil.ReadFile` (identified by a code),
or a `*strconv.NumError` with its fields `Func`, `Num`, `Err`. -/
inductive GoError where
  | io (code : Nat)
  | numError (Func : String) (Num : GoString) (Err : NumErr)
deriving DecidableEq

/-- A Go call returns a value or panics. -/
inductive Outcome (α : Type) where
  | ret (v : α)
  | panic (msg : String)
deriving DecidableEq

/-- Sequencing of calls: a panic propagates. -/
def Outcome.bind {α β : Type} (x : Outcome α) (f : α → Outcome β) : Outcome β :=
  match x with
  | .ret v => f v
  | .panic m => .panic m

/-- The slice expression `a[:hi]`: panics unless `0 ≤ hi ≤ len(a)`. -/
def sliceTo {α : Type} (a : List α) (hi : Int) : Outcome (List α) :=
  if 0 ≤ hi ∧ hi ≤ (a.length : Int) then .ret (a.take hi.toNat)
  else .panic "slice bounds out of range"

/-- The index expression `a[i]`: panics unless `0 ≤ i < len(a)`. -/
def index {α : Type} (a : List α) (i : Int) : Outcome α :=
  if 0 ≤ i then
    match a.get? i.toNat with
    | some v => .ret v
    | none => .panic "index out of range"
  else .panic "index out of range"

/-! ## `strings.Split` and `strings.Join` -/

/-- The function `strings.IndexByte`: index of the first `c` in `s`, or `-1`. -/
def IndexByte : GoString → Byte → Int
  | [], _ => -1
  | b :: bs, c =>
    if b = c then 0
    else
      let r := IndexByte bs c
      if r < 0 then -1 else r + 1

/-- The function `strings.Count` for a one-byte separator. -/
def Count : GoString → Byte → Nat
  | [], _ => 0
  | b :: bs, c => if b = c then Count bs c + 1 else Count bs c

/-- The loop of `strings.genSplit` for a one-byte separator (`len(sep) = 1`,
`sepSave = 0`): `n` is the number of pieces still to cut off.
```
for i < n { m := Index(s, sep); if m < 0 { break }
            a[i] = s[:m]; s = s[m+len(sep):]; i++ }
a[i] = s
``` -/
def genSplit : Nat → GoString → Byte → List GoString
  | 0, s, _ => [s]
  | n + 1, s, sep =>
    let m := IndexByte s sep
    if m < 0 then [s]
    else s.take m.toNat :: genSplit n (s.drop (m.toNat + 1)) sep

/-- The call `strings.Split(s, sep)` for a one-byte separator: `genSplit(s, sep, 0, -1)`,
where `n < 0` is replaced by `Count(s, sep) + 1` and the loop runs while `i < n - 1`. -/
def Split (s : GoString) (sep : Byte) : List GoString :=
  genSplit (Count s sep) s sep

/-- The function `strings.Join`. -/
def Join : List GoString → GoString → GoString
  | [], _ => []
  | [a], _ => a
  | a :: b :: rest, sep => a ++ sep ++ Join (b :: rest) sep

/-! ## `LicenseComment` -/

/-- Embedding of `LicenseComment`; `(l, err)` is what `ioutil.ReadFile(licensePath)` returned.
```
if err != nil { return "", err }
lines := strings.Split(string(l), "\n")
license := "// " + strings.Join(lines[:len(lines)-1], "\n// ")
return license, nil
``` -/
def LicenseComment (file : GoString × Option GoError) : Outcome (GoString × Option GoError) :=
  match file with
  | (_, some err) => .ret ([], some err)
  | (l, none) =>
    let lines := Split l nl
    (sliceTo lines ((lines.length : Int) - 1)).bind fun head =>
    let license := str "// " ++ Join head (str "\n// ")
    .ret (license, none)

/-! ## `strconv.Atoi` -/

/-- The constant `strconv.IntSize` of a 64-bit platform. -/
def intSize : Nat := 64

def syntaxError (fn : String) (s : GoString) : GoError := .numError fn s .ErrSyntax

def rangeError (fn : String) (s : GoString) : GoError := .numError fn s .ErrRange

/-- Wrap-around of signed 64-bit arithmetic. -/
def wrapInt64 (x : Int) : Int := (x + 2 ^ 63) % 2 ^ 64 - 2 ^ 63

/-- The byte subtraction `ch - '0'` (it wraps below zero). -/
def subZero (ch : Byte) : Nat := (ch.toNat + 256 - 48) % 256

/-- The fast path loop of `Atoi`:
```
for _, ch := range []byte(s) {
  ch -= '0'
  if ch > 9 { return 0, syntaxError(fnAtoi, s0) }
  n = n*10 + int(ch) }
``` -/
def atoiFast : GoString → Int → Option Int
  | [], n => some n
  | ch :: cs, n =>
    let d := subZero ch
    if d > 9 then none
    else atoiFast cs (wrapInt64 (wrapInt64 (n * 10) + (d : Int)))

/-- The function `lower` of `strconv`: `c | ('x' - 'X')`. -/
def lower (c : Byte) : Byte := c ||| 32

/-- The loop of `ParseUint(s, 10, 64)`; `cutoff = maxUint64/10 + 1`, `maxVal = 1<<64 - 1`.
The accumulator `n` is a `uint64`. -/
def parseUintLoop (s0 : GoString) : GoString → Nat → Nat × Option GoError
  | [], n => (n, none)
  | c :: cs, n =>
    let dOpt : Option Nat :=
      if 48 ≤ c.toNat ∧ c.toNat ≤ 57 then some (c.toNat - 48)
      else if 97 ≤ (lower c).toNat ∧ (lower c).toNat ≤ 122 then some ((lower c).toNat - 97 + 10)
      else none
    match dOpt with
    | none => (0, some (syntaxError "ParseUint" s0))
    | some d =>
      if d ≥ 10 then (0, some (syntaxError "ParseUint" s0))
      else if n ≥ (2 ^ 64 - 1) / 10 + 1 then (2 ^ 64 - 1, some (rangeError "ParseUint" s0))
      else
        let n10 := (n * 10) % 2 ^ 64
        let n1 := (n10 + d) % 2 ^ 64
        if n1 < n10 ∨ n1 > 2 ^ 64 - 1 then (2 ^ 64 - 1, some (rangeError "ParseUint" s0))
        else parseUintLoop s0 cs n1

/-- The call `ParseUint(s, 10, 0)`: base 10, so no prefix and no underscores. -/
def ParseUint (s : GoString) : Nat × Option GoError :=
  if s = [] then (0, some (syntaxError "ParseUint" s))
  else parseUintLoop s s 0

/-- The conversion `int64(un)` of a `uint64`. -/
def toInt64 (un : Nat) : Int := wrapInt64 (un : Int)

/-- The call `ParseInt(s, 10, 0)`. -/
def ParseInt (s0 : GoString) : Int × Option GoError :=
  match s0 with
  | [] => (0, some (syntaxError "ParseInt" s0))
  | c :: cs =>
    let neg := decide (c = 45)
    let s := if c = 43 ∨ c = 45 then cs else s0
    match ParseUint s with
    | (_, some (.numError _ _ .ErrSyntax)) => (0, some (.numError "ParseInt" s0 .ErrSyntax))
    | (un, _) =>
      let cutoff : Nat := 2 ^ (intSize - 1)
      if !neg && decide (un ≥ cutoff) then (toInt64 (cutoff - 1), some (rangeError "ParseInt" s0))
      else if neg && decide (un > cutoff) then (wrapInt64 (-(toInt64 cutoff)), some (rangeError "ParseInt" s0))
      else
        let n := toInt64 un
        (if neg then wrapInt64 (-n) else n, none)

/-- The function `strconv.Atoi` with `intSize = 64`. -/
def Atoi (s : GoString) : Int × Option GoError :=
  if 0 < s.length ∧ s.length < 19 then
    match s with
    | [] => (0, some (syntaxError "Atoi" s))
    | c :: cs =>
      let body := if c = 45 ∨ c = 43 then cs else s
      if body.length < 1 then (0, some (syntaxError "Atoi" s))
      else
        match atoiFast body 0 with
        | none => (0, some (syntaxError "Atoi" s))
        | some n => (if c = 45 then wrapInt64 (-n) else n, none)
  else
    match ParseInt s with
    | (i64, some (.numError _ num e)) => (i64, some (.numError "Atoi" num e))
    | (i64, err) => (i64, err)

/-! ## The regular expression `^// Copyright (\d+)` -/

/-- The class `\d`: an ASCII digit. -/
def isDigit (c : Byte) : Bool := decide (48 ≤ c.toNat ∧ c.toNat ≤ 57)

/-- The call `regexp.MustCompile("^// Copyright (\\d+)").FindStringSubmatch(s)`:
`^` anchors at the start of the text, the literal follows, and the greedy group `(\d+)`
takes the longest non-empty run of digits.  The result is `[match, group 1]`, or `nil`
when there is no match. -/
def FindStringSubmatch (s : GoString) : List GoString :=
  let lit := str "// Copyright "
  if lit.isPrefixOf s then
    let digits := (s.drop lit.length).takeWhile isDigit
    if digits.isEmpty then [] else [lit ++ digits, digits]
  else []

/-! ## `LicenseYear` -/

/-- Embedding of `LicenseYear`.
```
license, err := LicenseComment()
if err != nil { return 0, err }
year, err := strconv.Atoi(regexp.MustCompile(...).FindStringSubmatch(license)[1])
if err != nil { return 0, err }
return year, nil
``` -/
def LicenseYear (file : GoString × Option GoError) : Outcome (Int × Option GoError) :=
  (LicenseComment file).bind fun r =>
  match r with
  | (_, some err) => .ret (0, some err)
  | (license, none) =>
    (index (FindStringSubmatch license) 1).bind fun group =>
    match Atoi group with
    | (_, some err) => .ret (0, some err)
    | (year, none) => .ret (year, none)

/-- The decimal value of a run of digits. -/
def decVal (d : GoString) : Nat := d.foldl (fun n c => n * 10 + (c.toNat - 48)) 0

/-- The decimal value of a run of digits read after the value `n`. -/
def decFrom (n : Nat) (d : GoString) : Nat := d.foldl (fun n c => n * 10 + (c.toNat - 48)) n

end internal

namespace event

/-! ## The event catalog

A Go `int` field is an `Int`.  A `float32` field is carried by its IEEE-754 bit pattern;
the catalog performs no arithmetic on it.  A defined type `type B A` has the underlying
struct type of `A`: the embedding is a structure extending `A`, whose fields are read under
the same names, and the conversions `B(a)` and `A(b)` are `B.mk` and `B.toA`. -/

/-- A Go `float32`, as its bit pattern. -/
structure float32 where
  bits : Fin (2 ^ 32)
deriving DecidableEq

structure KeyCharacter where
  Code : Int
  Modifiers : Int
  Character : Int
deriving DecidableEq

structure KeyDown where
  Code : Int
  Modifiers : Int
deriving DecidableEq

/-- The Go definition `type KeyUp KeyDown`. -/
structure KeyUp extends KeyDown
deriving DecidableEq

structure GamepadAxis where
  ID : Int
  Axis : Int
  Position : float32
deriving DecidableEq

structure GamepadButtonDown where
  ID : Int
  Button : Int
  Pressure : float32
deriving DecidableEq

/-- The Go definition `type GamepadButtonUp GamepadButtonDown`. -/
structure GamepadButtonUp extends GamepadButtonDown
deriving DecidableEq

structure GamepadAttach where
  ID : Int
  Axes : Int
  Buttons : Int
deriving DecidableEq

structure GamepadDetach where
  ID : Int
deriving DecidableEq

structure MouseMove where
  X : float32
  Y : float32
  DeltaX : float32
  DeltaY : float32
deriving DecidableEq

structure MouseWheel where
  X : float32
  Y : float32
  DeltaX : float32
  DeltaY : float32
deriving DecidableEq

structure MouseButtonDown where
  X : float32
  Y : float32
  Button : Int
  Pressure : float32
deriving DecidableEq

/-- The Go definition `type MouseButtonUp MouseButtonDown`. -/
structure MouseButtonUp extends MouseButtonDown
deriving DecidableEq

structure MouseEnter where
  X : float32
  Y : float32
deriving DecidableEq

/-- The Go definition `type MouseLeave MouseEnter`. -/
structure MouseLeave extends MouseEnter
deriving DecidableEq

structure ViewUpdate where
deriving DecidableEq

structure ViewSize where
  Width : Int
  Height : Int
deriving DecidableEq

structure TouchBegin where
  ID : Int
  X : float32
  Y : float32
  Pressure : float32
  Primary : Bool
deriving DecidableEq

structure TouchMove where
  ID : Int
  X : float32
  Y : float32
  DeltaX : float32
  DeltaY : float32
  Pressure : float32
  Primary : Bool
deriving DecidableEq

/-- The Go definition `type TouchEnd TouchMove`. -/
structure TouchEnd extends TouchMove
deriving DecidableEq

structure TouchCancel where
  ID : Int
deriving DecidableEq

/-- A `TouchEnd` record. -/
def touchEndA : TouchEnd := ⟨⟨1, ⟨0⟩, ⟨0⟩, ⟨0⟩, ⟨0⟩, ⟨0⟩, true⟩⟩

/-- The record `touchEndA` with another `DeltaX`: the two agree on `ID`, `X`, `Y`,
`Pressure` and `Primary`. -/
def touchEndB : TouchEnd := ⟨⟨1, ⟨0⟩, ⟨0⟩, ⟨1⟩, ⟨0⟩, ⟨0⟩, true⟩⟩

end event

namespace internal

/-! ## Facts about `Split` and `Join` -/

theorem IndexByte_ge (s : GoString) (c : Byte) : -1 ≤ IndexByte s c := by
  induction s with
  | nil => simp [IndexByte]
  | cons b bs ih =>
    simp only [IndexByte]
    split
    · omega
    · split <;> omega

theorem genSplit_ne_nil (n : Nat) (s : GoString) (sep : Byte) : genSplit n s sep ≠ [] := by
  cases n with
  | zero => simp [genSplit]
  | succ k =>
    simp only [genSplit]
    split <;> simp

theorem Split_ne_nil (s : GoString) (sep : Byte) : Split s sep ≠ [] :=
  genSplit_ne_nil _ _ _

theorem Split_nil (sep : Byte) : Split [] sep = [[]] := rfl

theorem Split_cons_sep (cs : GoString) (sep : Byte) :
    Split (sep :: cs) sep = [] :: Split cs sep := by
  simp [Split, Count, genSplit, IndexByte]

theorem Split_cons_ne (b : Byte) (cs : GoString) (sep : Byte) (h : b ≠ sep) :
    ∃ p ps, Split cs sep = p :: ps ∧ Split (b :: cs) sep = (b :: p) :: ps := by
  have hc : Count (b :: cs) sep = Count cs sep := by simp [Count, h]
  unfold Split
  rw [hc]
  cases hn : Count cs sep with
  | zero => exact ⟨cs, [], by simp [genSplit], by simp [genSplit]⟩
  | succ k =>
    have hge := IndexByte_ge cs sep
    by_cases hr : IndexByte cs sep < 0
    · refine ⟨cs, [], by simp [genSplit, hr], ?_⟩
      simp [genSplit, IndexByte, h, hr]
    · refine ⟨cs.take (IndexByte cs sep).toNat,
        genSplit k (cs.drop ((IndexByte cs sep).toNat + 1)) sep, by simp [genSplit, hr], ?_⟩
      have h1 : ¬ (IndexByte cs sep + 1 < 0) := by omega
      have h2 : (IndexByte cs sep + 1).toNat = (IndexByte cs sep).toNat + 1 := by omega
      simp [genSplit, IndexByte, h, hr, h1, h2]

theorem Split_append_sep (a b : GoString) (sep : Byte) :
    Split (a ++ sep :: b) sep = Split a sep ++ Split b sep := by
  induction a with
  | nil => simp [Split_cons_sep, Split_nil]
  | cons x a ih =>
    by_cases hx : x = sep
    · subst hx
      simp [Split_cons_sep, ih]
    · obtain ⟨p, ps, h1, h2⟩ := Split_cons_ne x a sep hx
      obtain ⟨q, qs, h3, h4⟩ := Split_cons_ne x (a ++ sep :: b) sep hx
      rw [List.cons_append, h4, h2]
      rw [ih, h1] at h3
      simp only [List.cons_append, List.cons.injEq] at h3
      simp [h3.1, h3.2]

theorem Split_of_not_mem (s : GoString) (sep : Byte) (h : sep ∉ s) : Split s sep = [s] := by
  induction s with
  | nil => rfl
  | cons x s ih =>
    have hx : x ≠ sep := fun e => h (by simp [e])
    have hs : sep ∉ s := fun e => h (List.mem_cons_of_mem _ e)
    obtain ⟨p, ps, h1, h2⟩ := Split_cons_ne x s sep hx
    rw [ih hs] at h1
    simp only [List.cons.injEq] at h1
    rw [h2, ← h1.1, ← h1.2]

theorem exists_first (s : GoString) (sep : Byte) (h : sep ∈ s) :
    ∃ a b, s = a ++ sep :: b ∧ sep ∉ a := by
  induction s with
  | nil => simp at h
  | cons x s ih =>
    by_cases hx : x = sep
    · exact ⟨[], s, by simp [hx], by simp⟩
    · have hs : sep ∈ s := by
        rcases List.mem_cons.1 h with e | e
        · exact absurd e.symm hx
        · exact e
      obtain ⟨a, b, e, ha⟩ := ih hs
      refine ⟨x :: a, b, by simp [e], ?_⟩
      intro hm
      rcases List.mem_cons.1 hm with e' | e'
      · exact hx e'.symm
      · exact ha e'

theorem Split_pieces (s : GoString) (sep : Byte) : ∀ p ∈ Split s sep, sep ∉ p := by
  induction s with
  | nil => simp [Split_nil]
  | cons x s ih =>
    by_cases hx : x = sep
    · subst hx
      rw [Split_cons_sep]
      intro p hp
      rcases List.mem_cons.1 hp with e | e
      · simp [e]
      · exact ih p e
    · obtain ⟨q, qs, h1, h2⟩ := Split_cons_ne x s sep hx
      rw [h2]
      rw [h1] at ih
      intro p hp
      rcases List.mem_cons.1 hp with e | e
      · subst e
        intro hm
        rcases List.mem_cons.1 hm with e' | e'
        · exact hx e'.symm
        · exact ih q (by simp) e'
      · exact ih p (List.mem_cons_of_mem _ e)

theorem Join_Split (s : GoString) (sep : Byte) : Join (Split s sep) [sep] = s := by
  induction s with
  | nil => rfl
  | cons x s ih =>
    by_cases hx : x = sep
    · subst hx
      rw [Split_cons_sep]
      obtain ⟨q, qs, hq⟩ := List.exists_cons_of_ne_nil (Split_ne_nil s x)
      rw [hq] at ih ⊢
      simp [Join, ih]
    · obtain ⟨q, qs, h1, h2⟩ := Split_cons_ne x s sep hx
      rw [h2]
      rw [h1] at ih
      cases qs with
      | nil => simpa [Join] using ih
      | cons r rs =>
        simp only [Join, List.cons_append] at ih ⊢
        rw [ih]

theorem Split_Join (ps : List GoString) (sep : Byte) (hne : ps ≠ [])
    (hp : ∀ p ∈ ps, sep ∉ p) : Split (Join ps [sep]) sep = ps := by
  induction ps with
  | nil => exact absurd rfl hne
  | cons p ps ih =>
    cases ps with
    | nil => simpa [Join] using Split_of_not_mem p sep (hp p (by simp))
    | cons q qs =>
      have h1 : Join (p :: q :: qs) [sep] = p ++ sep :: Join (q :: qs) [sep] := by
        simp [Join]
      rw [h1, Split_append_sep, Split_of_not_mem p sep (hp p (by simp)),
        ih (by simp) (fun r hr => hp r (List.mem_cons_of_mem _ hr))]
      rfl


/-! ## Facts about `LicenseComment` -/

theorem sliceTo_length_pred {α : Type} (a : List α) (h : a ≠ []) :
    sliceTo a ((a.length : Int) - 1) = .ret a.dropLast := by
  have hl : 0 < a.length := List.length_pos.2 h
  have h1 : 0 ≤ (a.length : Int) - 1 ∧ (a.length : Int) - 1 ≤ (a.length : Int) := by omega
  have h2 : ((a.length : Int) - 1).toNat = a.length - 1 := by omega
  simp only [sliceTo, h1, and_self, if_true, h2, List.dropLast_eq_take]

theorem LicenseComment_eq (c : GoString) :
    LicenseComment (c, none)
      = .ret (str "// " ++ Join (Split c nl).dropLast (str "\n// "), none) := by
  simp only [LicenseComment, sliceTo_length_pred _ (Split_ne_nil c nl), Outcome.bind]

theorem dropLast_Split_snoc (c s : GoString) (hs : nl ∉ s) :
    (Split (c ++ nl :: s) nl).dropLast = Split c nl := by
  rw [Split_append_sep, Split_of_not_mem s nl hs, List.dropLast_concat]

theorem Join_cons (p : GoString) (ps : List GoString) (sep : GoString) :
    Join (p :: ps) sep = p ++ (if ps = [] then [] else sep ++ Join ps sep) := by
  cases ps with
  | nil => simp [Join]
  | cons q qs => simp [Join]

theorem Join_prepend (pre sep : GoString) (ps : List GoString) (h : ps ≠ []) :
    pre ++ Join ps (sep ++ pre) = Join (ps.map (fun p => pre ++ p)) sep := by
  induction ps with
  | nil => exact absurd rfl h
  | cons p ps ih =>
    cases ps with
    | nil => simp [Join]
    | cons q qs =>
      have := ih (by simp)
      simp only [Join, List.map_cons, List.append_assoc] at this ⊢
      rw [this]

theorem str_slashes : str "// " = [47, 47, 32] := by decide

theorem str_sep : str "\n// " = [nl] ++ str "// " := by decide

theorem str_copyright : str "// Copyright " = str "// " ++ str "Copyright " := by decide

theorem nl_not_mem_copyright : nl ∉ str "Copyright " := by decide

theorem getLast?_Join (ps : List GoString) (sep : Byte) (h : ps ≠ [])
    (hp : ∀ p ∈ ps, sep ∉ p) (hl : ps.getLast? ≠ some []) :
    (Join ps [sep]).getLast? ≠ some sep := by
  intro hJ
  obtain ⟨o, ho⟩ : ∃ o, Join ps [sep] = o ++ [sep] := by
    rcases List.eq_nil_or_concat (Join ps [sep]) with e | ⟨o, b, e⟩
    · rw [e] at hJ; simp at hJ
    · rw [e] at hJ
      simp at hJ
      exact ⟨o, by rw [e, hJ, List.concat_eq_append]⟩
  have h1 := Split_Join ps sep h hp
  rw [ho, Split_append_sep, Split_nil] at h1
  apply hl
  rw [← h1]
  simp


/-! ## Facts about `Atoi` on runs of digits -/

theorem decVal_eq (d : GoString) : decVal d = decFrom 0 d := rfl

theorem decFrom_cons (n : Nat) (c : Byte) (cs : GoString) :
    decFrom n (c :: cs) = decFrom (n * 10 + (c.toNat - 48)) cs := rfl

theorem isDigit_iff (c : Byte) : isDigit c = true ↔ 48 ≤ c.toNat ∧ c.toNat ≤ 57 := by
  simp [isDigit]

theorem le_decFrom (n : Nat) (d : GoString) : n ≤ decFrom n d := by
  induction d generalizing n with
  | nil => exact Nat.le_refl _
  | cons c cs ih =>
    rw [decFrom_cons]
    have := ih (n * 10 + (c.toNat - 48))
    omega

theorem decFrom_lt (n : Nat) (d : GoString) (hd : ∀ c ∈ d, isDigit c = true) :
    decFrom n d < (n + 1) * 10 ^ d.length := by
  induction d generalizing n with
  | nil => simp [decFrom]
  | cons c cs ih =>
    rw [decFrom_cons]
    have hc := (isDigit_iff c).1 (hd c (by simp))
    have h1 := ih (n * 10 + (c.toNat - 48)) (fun x hx => hd x (List.mem_cons_of_mem _ hx))
    have h2 : (n * 10 + (c.toNat - 48) + 1) * 10 ^ cs.length ≤ (n + 1) * 10 ^ (c :: cs).length := by
      rw [List.length_cons, pow_succ]
      have : n * 10 + (c.toNat - 48) + 1 ≤ (n + 1) * 10 := by omega
      calc (n * 10 + (c.toNat - 48) + 1) * 10 ^ cs.length
          ≤ ((n + 1) * 10) * 10 ^ cs.length := Nat.mul_le_mul_right _ this
        _ = (n + 1) * (10 ^ cs.length * 10) := by ring
    omega

theorem wrapInt64_of_lt (x : Int) (h0 : 0 ≤ x) (h1 : x < 2 ^ 63) : wrapInt64 x = x := by
  unfold wrapInt64
  omega

theorem atoiFast_digits (d : GoString) (n : Nat) (hd : ∀ c ∈ d, isDigit c = true)
    (hfit : decFrom n d < 2 ^ 63) : atoiFast d (n : Int) = some (decFrom n d : Int) := by
  induction d generalizing n with
  | nil => rfl
  | cons c cs ih =>
    rw [decFrom_cons] at hfit ⊢
    have hc := (isDigit_iff c).1 (hd c (by simp))
    have hle := le_decFrom (n * 10 + (c.toNat - 48)) cs
    have hs : subZero c = c.toNat - 48 := by unfold subZero; omega
    have h9 : ¬ (c.toNat - 48 > 9) := by omega
    have hw1 : wrapInt64 ((n : Int) * 10) = (n : Int) * 10 := by
      apply wrapInt64_of_lt <;> omega
    have hw2 : wrapInt64 ((n : Int) * 10 + ((c.toNat - 48 : Nat) : Int))
        = ((n * 10 + (c.toNat - 48) : Nat) : Int) := by
      rw [wrapInt64_of_lt] <;> push_cast <;> omega
    simp only [atoiFast, hs, h9, if_false, hw1, hw2]
    exact ih _ (fun x hx => hd x (List.mem_cons_of_mem _ hx)) hfit

theorem parseUintLoop_digits (s0 d : GoString) (n : Nat) (hn : n < 2 ^ 64)
    (hd : ∀ c ∈ d, isDigit c = true) :
    parseUintLoop s0 d n
      = if decFrom n d < 2 ^ 64 then (decFrom n d, none)
        else (2 ^ 64 - 1, some (rangeError "ParseUint" s0)) := by
  induction d generalizing n with
  | nil => simp only [parseUintLoop, decFrom, List.foldl_nil, hn, if_true]
  | cons c cs ih =>
    rw [decFrom_cons]
    have hc := (isDigit_iff c).1 (hd c (by simp))
    have hle := le_decFrom (n * 10 + (c.toNat - 48)) cs
    have h10 : ¬ (c.toNat - 48 ≥ 10) := by omega
    simp only [parseUintLoop, hc, and_self, if_true, h10, if_false]
    by_cases hcut : n ≥ (2 ^ 64 - 1) / 10 + 1
    · have : ¬ decFrom (n * 10 + (c.toNat - 48)) cs < 2 ^ 64 := by omega
      simp only [hcut, if_true, this, if_false]
    · simp only [hcut, if_false]
      have hm : n * 10 % 2 ^ 64 = n * 10 := by omega
      rw [hm]
      by_cases hov : n * 10 + (c.toNat - 48) < 2 ^ 64
      · have hm2 : (n * 10 + (c.toNat - 48)) % 2 ^ 64 = n * 10 + (c.toNat - 48) := by omega
        have hno : ¬ (n * 10 + (c.toNat - 48) < n * 10 ∨ n * 10 + (c.toNat - 48) > 2 ^ 64 - 1) := by
          omega
        rw [hm2]
        simp only [hno, if_false]
        exact ih _ hov (fun x hx => hd x (List.mem_cons_of_mem _ hx))
      · have hyes : (n * 10 + (c.toNat - 48)) % 2 ^ 64 < n * 10 ∨
            (n * 10 + (c.toNat - 48)) % 2 ^ 64 > 2 ^ 64 - 1 := by omega
        have : ¬ decFrom (n * 10 + (c.toNat - 48)) cs < 2 ^ 64 := by omega
        simp only [hyes, if_true, this, if_false]

theorem Atoi_digits (d : GoString) (hne : d ≠ []) (hd : ∀ c ∈ d, isDigit c = true) :
    Atoi d = if decVal d < 2 ^ 63 then ((decVal d : Int), none)
      else (2 ^ 63 - 1, some (.numError "Atoi" d .ErrRange)) := by
  obtain ⟨c, cs, rfl⟩ := List.exists_cons_of_ne_nil hne
  have hc := (isDigit_iff c).1 (hd c (by simp))
  have hc45 : c ≠ 45 := by
    intro e; rw [e] at hc; revert hc; decide
  have hc43 : c ≠ 43 := by
    intro e; rw [e] at hc; revert hc; decide
  by_cases hlen : 0 < (c :: cs).length ∧ (c :: cs).length < 19
  · have hlt := decFrom_lt 0 (c :: cs) hd
    have hpow : 10 ^ (c :: cs).length ≤ 10 ^ 18 :=
      Nat.pow_le_pow_right (by decide) (by omega)
    have hfit : decFrom 0 (c :: cs) < 2 ^ 63 := by
      have : (10 : Nat) ^ 18 < 2 ^ 63 := by norm_num
      omega
    have hfast := atoiFast_digits (c :: cs) 0 hd hfit
    have hl1 : ¬ ((c :: cs).length < 1) := by simp
    simp only [decVal_eq, hfit, if_true]
    simp only [Atoi, hlen, and_self, if_true, hc45, hc43, or_self, if_false, hl1]
    simp only [Nat.cast_zero] at hfast
    rw [hfast]
  · have hu := parseUintLoop_digits (c :: cs) (c :: cs) 0 (by norm_num) hd
    rw [← decVal_eq] at hu
    have hw : toInt64 (2 ^ (intSize - 1) - 1) = 2 ^ 63 - 1 := by
      simp only [intSize, toInt64]; rw [wrapInt64_of_lt] <;> norm_num
    by_cases h64 : decVal (c :: cs) < 2 ^ 64
    · rw [if_pos h64] at hu
      have hPU : ParseUint (c :: cs) = (decVal (c :: cs), none) := by
        simp only [ParseUint, List.cons_ne_nil, if_false, hu]
      by_cases h63 : decVal (c :: cs) < 2 ^ 63
      · have hge : ¬ (decVal (c :: cs) ≥ 2 ^ (intSize - 1)) := by
          simp only [intSize]; omega
        have hw2 : toInt64 (decVal (c :: cs)) = (decVal (c :: cs) : Int) := by
          unfold toInt64; apply wrapInt64_of_lt <;> omega
        rw [if_pos h63]
        simp only [Atoi, hlen, if_false, ParseInt, hc45, hc43, or_self, decide_False, hPU,
          Bool.not_false, Bool.true_and, Bool.false_and, hge, hw2, Bool.false_eq_true]
      · have hge : decVal (c :: cs) ≥ 2 ^ (intSize - 1) := by
          simp only [intSize]; omega
        rw [if_neg h63]
        simp only [Atoi, hlen, if_false, ParseInt, hc45, hc43, or_self, decide_False, hPU,
          Bool.not_false, Bool.true_and, hge, decide_True, if_true, hw, rangeError]
    · rw [if_neg h64] at hu
      have hPU : ParseUint (c :: cs) = (2 ^ 64 - 1, some (rangeError "ParseUint" (c :: cs))) := by
        simp only [ParseUint, List.cons_ne_nil, if_false, hu]
      have h63 : ¬ decVal (c :: cs) < 2 ^ 63 := by omega
      have hge : (2 : Nat) ^ 64 - 1 ≥ 2 ^ (intSize - 1) := by
        simp only [intSize]; norm_num
      rw [if_neg h63]
      simp only [Atoi, hlen, if_false, ParseInt, hc45, hc43, or_self, decide_False, hPU,
        Bool.not_false, Bool.true_and, hge, decide_True, if_true, hw, rangeError]


/-! ## Facts about `FindStringSubmatch` and `LicenseYear` -/

theorem LicenseComment_first_line (first tail : GoString) (h : nl ∉ first) :
    ∃ X, LicenseComment (first ++ nl :: tail, none) = .ret (str "// " ++ first ++ X, none)
      ∧ (X = [] ∨ ∃ X', X = nl :: X') := by
  rw [LicenseComment_eq, Split_append_sep, Split_of_not_mem first nl h,
    List.dropLast_append_of_ne_nil _ (Split_ne_nil tail nl), List.singleton_append, Join_cons]
  by_cases hT : (Split tail nl).dropLast = []
  · exact ⟨[], by simp [hT], Or.inl rfl⟩
  · refine ⟨str "\n// " ++ Join (Split tail nl).dropLast (str "\n// "), ?_, Or.inr ?_⟩
    · simp [hT]
    · exact ⟨str "// " ++ Join (Split tail nl).dropLast (str "\n// "), by
        rw [str_sep]; simp⟩

theorem FindStringSubmatch_digits (d y : GoString) (hne : d ≠ [])
    (hd : ∀ c ∈ d, isDigit c = true)
    (hy : y = [] ∨ ∃ h t, y = h :: t ∧ isDigit h = false) :
    FindStringSubmatch (str "// Copyright " ++ d ++ y) = [str "// Copyright " ++ d, d] := by
  have hp : (str "// Copyright ").isPrefixOf (str "// Copyright " ++ d ++ y) = true := by
    rw [List.isPrefixOf_iff_prefix, List.append_assoc]
    exact List.prefix_append _ _
  have hy0 : y.takeWhile isDigit = [] := by
    rcases hy with e | ⟨h, t, e, hh⟩
    · rw [e]; rfl
    · rw [e, List.takeWhile_cons, hh]; rfl
  have ht : ((str "// Copyright " ++ d ++ y).drop (str "// Copyright ").length).takeWhile isDigit
      = d := by
    rw [List.append_assoc, List.drop_left, List.takeWhile_append_of_pos hd, hy0,
      List.append_nil]
  have he : d.isEmpty = false := by
    cases d with
    | nil => exact absurd rfl hne
    | cons a b => rfl
  simp only [FindStringSubmatch, hp, if_true, ht, he, Bool.false_eq_true, if_false]

theorem isPrefixOf_append_tail (lit a X : GoString) (hlit : nl ∉ lit)
    (hX : X = [] ∨ ∃ X', X = nl :: X') : lit.isPrefixOf (a ++ X) = lit.isPrefixOf a := by
  induction lit generalizing a with
  | nil => simp
  | cons l ls ih =>
    have hl : l ≠ nl := fun e => hlit (by simp [e])
    have hls : nl ∉ ls := fun e => hlit (List.mem_cons_of_mem _ e)
    cases a with
    | nil =>
      rcases hX with e | ⟨X', e⟩
      · simp [e]
      · simp [e, List.isPrefixOf, hl]
    | cons x a =>
      have := ih a hls
      simp only [List.cons_append, List.isPrefixOf, List.append_eq, this]

theorem takeWhile_isDigit_append_tail (a X : GoString) (hX : X = [] ∨ ∃ X', X = nl :: X') :
    (a ++ X).takeWhile isDigit = a.takeWhile isDigit := by
  induction a with
  | nil =>
    rcases hX with e | ⟨X', e⟩
    · simp [e]
    · have : isDigit nl = false := by decide
      simp [e, List.takeWhile_cons, this]
  | cons x a ih =>
    simp only [List.cons_append, List.takeWhile_cons, ih]

theorem FindStringSubmatch_append_tail (a X : GoString) (hX : X = [] ∨ ∃ X', X = nl :: X') :
    FindStringSubmatch (a ++ X) = FindStringSubmatch a := by
  have hlit : nl ∉ str "// Copyright " := by decide
  have hp := isPrefixOf_append_tail (str "// Copyright ") a X hlit hX
  by_cases h : (str "// Copyright ").isPrefixOf a = true
  · obtain ⟨a2, rfl⟩ := List.isPrefixOf_iff_prefix.1 h
    have hd : ((str "// Copyright " ++ a2 ++ X).drop (str "// Copyright ").length).takeWhile
        isDigit = ((str "// Copyright " ++ a2).drop (str "// Copyright ").length).takeWhile
        isDigit := by
      rw [List.append_assoc, List.drop_left, List.drop_left,
        takeWhile_isDigit_append_tail a2 X hX]
    simp only [FindStringSubmatch, hp, hd]
  · simp only [FindStringSubmatch, hp, h, Bool.false_eq_true, if_false]

theorem LicenseYear_first_line (first tail tail' : GoString) (h : nl ∉ first) :
    LicenseYear (first ++ nl :: tail, none) = LicenseYear (first ++ nl :: tail', none) := by
  obtain ⟨X, hX, hX2⟩ := LicenseComment_first_line first tail h
  obtain ⟨Y, hY, hY2⟩ := LicenseComment_first_line first tail' h
  simp only [LicenseYear, hX, hY, Outcome.bind, FindStringSubmatch_append_tail _ X hX2,
    FindStringSubmatch_append_tail _ Y hY2]

theorem nl_not_digit (d : GoString) (hd : ∀ c ∈ d, isDigit c = true) : nl ∉ d := by
  intro h
  have := hd nl h
  revert this
  decide

theorem LicenseYear_digits (d rest : GoString) (hne : d ≠ [])
    (hd : ∀ c ∈ d, isDigit c = true)
    (hrest : ∀ ch ∈ rest.head?, isDigit ch = false)
    (hnl : nl ∈ str "Copyright " ++ d ++ rest) :
    LicenseYear (str "Copyright " ++ d ++ rest, none)
      = if decVal d < 2 ^ 63 then .ret ((decVal d : Int), none)
        else .ret (0, some (.numError "Atoi" d .ErrRange)) := by
  have hnd := nl_not_digit d hd
  have hr : nl ∈ rest := by
    rcases List.mem_append.1 hnl with h | h
    · rcases List.mem_append.1 h with h | h
      · exact absurd h nl_not_mem_copyright
      · exact absurd h hnd
    · exact h
  obtain ⟨r1, tail, hr1, hr2⟩ := exists_first rest nl hr
  have hfirst : nl ∉ str "Copyright " ++ d ++ r1 := by
    simp only [List.mem_append, not_or]
    exact ⟨⟨nl_not_mem_copyright, hnd⟩, hr2⟩
  obtain ⟨X, hX, hX2⟩ := LicenseComment_first_line _ tail hfirst
  have hc : str "Copyright " ++ d ++ rest = (str "Copyright " ++ d ++ r1) ++ nl :: tail := by
    rw [hr1]; simp
  have hy : r1 ++ X = [] ∨ ∃ h t, r1 ++ X = h :: t ∧ isDigit h = false := by
    cases r1 with
    | nil =>
      rcases hX2 with e | ⟨X', e⟩
      · exact Or.inl (by simp [e])
      · exact Or.inr ⟨nl, X', by simp [e], by decide⟩
    | cons a r =>
      refine Or.inr ⟨a, r ++ X, rfl, hrest a ?_⟩
      rw [hr1]; simp
  have hlic : str "// " ++ (str "Copyright " ++ d ++ r1) ++ X
      = str "// Copyright " ++ d ++ (r1 ++ X) := by
    rw [str_copyright]; simp
  have hF := FindStringSubmatch_digits d (r1 ++ X) hne hd hy
  have hA := Atoi_digits d hne hd
  rw [hc]
  simp only [LicenseYear, hX, Outcome.bind, hlic, hF, index]
  by_cases hfit : decVal d < 2 ^ 63
  · rw [if_pos hfit] at hA ⊢
    simp [hA]
  · rw [if_neg hfit] at hA ⊢
    simp [hA]


/-! ## The license extractor: the claims -/

/-- C1: on a readable file with content `c`, `LicenseComment` returns the content split on
newline, without its final piece, joined with `"\n// "` and prefixed with `"// "`, together
with a nil error; on `"Copyright 2015 X\nSome text\n"` this is
`"// Copyright 2015 X\n// Some text"`. -/
theorem LicenseComment_spec :
    (∀ c : GoString, LicenseComment (c, none)
        = .ret (str "// " ++ Join (Split c nl).dropLast (str "\n// "), none))
    ∧ LicenseComment (str "Copyright 2015 X\nSome text\n", none)
        = .ret (str "// Copyright 2015 X\n// Some text", none) :=
  ⟨LicenseComment_eq, by decide⟩

/-- C2: when the content contains a newline and reads `"Copyright "`, then a non-empty run
of digits `d` whose value fits in a signed 64-bit integer, then a rest that does not begin
with a digit, `LicenseYear` returns the decimal value of `d` with a nil error; the prefix
and the digits lie before the first newline, and what `LicenseYear` returns does not depend
on what follows the first newline of the content. -/
theorem LicenseYear_spec (d rest : GoString) (hne : d ≠ [])
    (hd : ∀ c ∈ d, isDigit c = true) (hfit : decVal d < 2 ^ 63)
    (hrest : ∀ ch ∈ rest.head?, isDigit ch = false)
    (hnl : nl ∈ str "Copyright " ++ d ++ rest) :
    LicenseYear (str "Copyright " ++ d ++ rest, none) = .ret ((decVal d : Int), none)
      ∧ nl ∉ str "Copyright " ++ d
      ∧ ∀ first tail tail' : GoString, nl ∉ first →
          LicenseYear (first ++ nl :: tail, none) = LicenseYear (first ++ nl :: tail', none) := by
  refine ⟨?_, ?_, LicenseYear_first_line⟩
  · rw [LicenseYear_digits d rest hne hd hrest hnl, if_pos hfit]
  · simp only [List.mem_append, not_or]
    exact ⟨nl_not_mem_copyright, nl_not_digit d hd⟩

/-- C2 at the content `"Copyright 2015 X\nSome text\n"`: the year is 2015. -/
theorem LicenseYear_spec_witness :
    LicenseYear (str "Copyright 2015 X\nSome text\n", none) = .ret (2015, none)
      ∧ nl ∉ str "Copyright 2015"
      ∧ ∀ first tail tail' : GoString, nl ∉ first →
          LicenseYear (first ++ nl :: tail, none) = LicenseYear (first ++ nl :: tail', none) :=
  LicenseYear_spec (str "2015") (str " X\nSome text\n") (by decide) (by decide) (by decide)
    (by decide) (by decide)

/-- C3: on the readable content `"Hello\n"`, whose first line does not start with
`"Copyright "` and a digit, `LicenseYear` panics at the index expression `[1]` on the nil
result of `FindStringSubmatch`; it does not return an error. -/
theorem LicenseYear_no_match_panics :
    LicenseYear (str "Hello\n", none) = .panic "index out of range" := by
  decide

/-- C4: when reading the file fails with error `e`, `LicenseComment` returns the empty
string with `e` and `LicenseYear` returns `0` with `e`, whatever bytes were read. -/
theorem read_error_propagated (l : GoString) (e : GoError) :
    LicenseComment (l, some e) = .ret ([], some e)
      ∧ LicenseYear (l, some e) = .ret (0, some e) :=
  ⟨rfl, rfl⟩

/-- C5: when the content contains a newline and reads `"Copyright "`, then a run of digits
`d` whose value does not fit in a signed 64-bit integer, then a rest that does not begin
with a digit, `LicenseYear` returns `0` and the range error of `Atoi`. -/
theorem LicenseYear_out_of_range (d rest : GoString) (hne : d ≠ [])
    (hd : ∀ c ∈ d, isDigit c = true) (hbig : 2 ^ 63 ≤ decVal d)
    (hrest : ∀ ch ∈ rest.head?, isDigit ch = false)
    (hnl : nl ∈ str "Copyright " ++ d ++ rest) :
    LicenseYear (str "Copyright " ++ d ++ rest, none)
      = .ret (0, some (.numError "Atoi" d .ErrRange)) := by
  rw [LicenseYear_digits d rest hne hd hrest hnl, if_neg (by omega)]

/-- C5 at the content `"Copyright 9223372036854775808 X\n"`. -/
theorem LicenseYear_out_of_range_witness :
    LicenseYear (str "Copyright 9223372036854775808 X\n", none)
      = .ret (0, some (.numError "Atoi" (str "9223372036854775808") .ErrRange)) :=
  LicenseYear_out_of_range (str "9223372036854775808") (str " X\n") (by decide) (by decide)
    (by decide) (by decide) (by decide)

/-- C6: when the content `c` ends in a newline, the lines of `c` are the pieces of
`Split c "\n"` but the last; the result of `LicenseComment` splits into exactly these lines,
in order, each prefixed with `"// "`; it does not end in a newline; and removing the three
bytes of prefix from every line of the result, joining with `"\n"` and appending `"\n"`
gives `c` back. -/
theorem LicenseComment_lines (c : GoString) (hc : c.getLast? = some nl) :
    ∃ out, LicenseComment (c, none) = .ret (out, none)
      ∧ (∀ p ∈ (Split c nl).dropLast, nl ∉ p)
      ∧ Join (Split c nl).dropLast [nl] ++ [nl] = c
      ∧ Split out nl = (Split c nl).dropLast.map (fun p => str "// " ++ p)
      ∧ out.getLast? ≠ some nl
      ∧ Join ((Split out nl).map (List.drop 3)) [nl] ++ [nl] = c := by
  obtain ⟨c', rfl⟩ := List.getLast?_eq_some_iff.1 hc
  have hL : (Split (c' ++ [nl]) nl).dropLast = Split c' nl :=
    dropLast_Split_snoc c' [] (by simp)
  have hne := Split_ne_nil c' nl
  have hmne : (Split c' nl).map (fun p => str "// " ++ p) ≠ [] := by simpa using hne
  have hpieces : ∀ q ∈ (Split c' nl).map (fun p => str "// " ++ p), nl ∉ q := by
    intro q hq
    obtain ⟨p, hp, rfl⟩ := List.mem_map.1 hq
    have h1 := Split_pieces c' nl p hp
    have h2 : nl ∉ str "// " := by decide
    simp only [List.mem_append, not_or]
    exact ⟨h2, h1⟩
  have hout : str "// " ++ Join (Split c' nl) (str "\n// ")
      = Join ((Split c' nl).map (fun p => str "// " ++ p)) [nl] := by
    rw [str_sep]
    exact Join_prepend (str "// ") [nl] (Split c' nl) hne
  have hsplit := Split_Join _ nl hmne hpieces
  have hdrop : ((Split c' nl).map (fun p => str "// " ++ p)).map (List.drop 3) = Split c' nl := by
    rw [List.map_map]
    conv_rhs => rw [← List.map_id (Split c' nl)]
    apply List.map_congr_left
    intro p _
    simp [str_slashes]
  refine ⟨_, LicenseComment_eq _, ?_, ?_, ?_, ?_, ?_⟩
  · rw [hL]; exact Split_pieces c' nl
  · rw [hL, Join_Split]
  · rw [hL, hout, hsplit]
  · rw [hL, hout]
    apply getLast?_Join _ nl hmne hpieces
    intro h
    obtain ⟨p, _, hp⟩ := List.mem_map.1 (List.mem_of_getLast?_eq_some h)
    simp [str_slashes] at hp
  · rw [hL, hout, hsplit, hdrop, Join_Split]

/-- C6 at the content `"Copyright 2015 X\nSome text\n"`. -/
theorem LicenseComment_lines_witness :
    ∃ out, LicenseComment (str "Copyright 2015 X\nSome text\n", none) = .ret (out, none)
      ∧ (∀ p ∈ (Split (str "Copyright 2015 X\nSome text\n") nl).dropLast, nl ∉ p)
      ∧ Join (Split (str "Copyright 2015 X\nSome text\n") nl).dropLast [nl] ++ [nl]
          = str "Copyright 2015 X\nSome text\n"
      ∧ Split out nl = (Split (str "Copyright 2015 X\nSome text\n") nl).dropLast.map
          (fun p => str "// " ++ p)
      ∧ out.getLast? ≠ some nl
      ∧ Join ((Split out nl).map (List.drop 3)) [nl] ++ [nl]
          = str "Copyright 2015 X\nSome text\n" :=
  LicenseComment_lines (str "Copyright 2015 X\nSome text\n") (by decide)

/-- C9: for every content of a readable file, `Split` yields at least one piece, the slice
`lines[:len(lines)-1]` is in bounds, and `LicenseComment` returns a string with a nil error
that starts with `"// "`. -/
theorem LicenseComment_total (c : GoString) :
    1 ≤ (Split c nl).length
      ∧ sliceTo (Split c nl) (((Split c nl).length : Int) - 1) = .ret (Split c nl).dropLast
      ∧ ∃ out, LicenseComment (c, none) = .ret (out, none) ∧ str "// " <+: out :=
  ⟨List.length_pos.2 (Split_ne_nil c nl), sliceTo_length_pred _ (Split_ne_nil c nl),
    _, LicenseComment_eq c, List.prefix_append _ _⟩

/-- C10: when `c` is empty or ends in a newline and `s` contains no newline,
`LicenseComment` returns on `c ++ s` what it returns on `c`, and on `s` alone it returns
exactly `"// "`. -/
theorem LicenseComment_drops_unterminated (c s : GoString)
    (hc : c = [] ∨ c.getLast? = some nl) (hs : nl ∉ s) :
    LicenseComment (c ++ s, none) = LicenseComment (c, none)
      ∧ LicenseComment (s, none) = .ret (str "// ", none) := by
  have hS : LicenseComment (s, none) = .ret (str "// ", none) := by
    rw [LicenseComment_eq, Split_of_not_mem s nl hs]
    simp [Join]
  refine ⟨?_, hS⟩
  rcases hc with rfl | hc
  · rw [List.nil_append, hS]
    decide
  · obtain ⟨c', rfl⟩ := List.getLast?_eq_some_iff.1 hc
    rw [LicenseComment_eq, LicenseComment_eq, List.append_assoc, List.singleton_append,
      dropLast_Split_snoc c' s hs, dropLast_Split_snoc c' [] (by simp)]

/-- C10 at `c = "Copyright 2015 X\n"` and `s = "Some text"`: the unterminated last line
is lost. -/
theorem LicenseComment_drops_unterminated_witness :
    LicenseComment (str "Copyright 2015 X\n" ++ str "Some text", none)
        = LicenseComment (str "Copyright 2015 X\n", none)
      ∧ LicenseComment (str "Some text", none) = .ret (str "// ", none) :=
  LicenseComment_drops_unterminated (str "Copyright 2015 X\n") (str "Some text")
    (Or.inr (by decide)) (by decide)

end internal

namespace event

/-! ## The event catalog: the claims -/

/-- C7: for each of the five pairs, the conversion from the base type to the defined type
keeps every field, and the two conversions are inverse to each other. -/
theorem alias_conversions :
    (∀ d : KeyDown, (KeyUp.mk d).Code = d.Code ∧ (KeyUp.mk d).Modifiers = d.Modifiers
        ∧ (KeyUp.mk d).toKeyDown = d)
    ∧ (∀ u : KeyUp, KeyUp.mk u.toKeyDown = u)
    ∧ (∀ d : GamepadButtonDown, (GamepadButtonUp.mk d).ID = d.ID
        ∧ (GamepadButtonUp.mk d).Button = d.Button
        ∧ (GamepadButtonUp.mk d).Pressure = d.Pressure
        ∧ (GamepadButtonUp.mk d).toGamepadButtonDown = d)
    ∧ (∀ u : GamepadButtonUp, GamepadButtonUp.mk u.toGamepadButtonDown = u)
    ∧ (∀ d : MouseButtonDown, (MouseButtonUp.mk d).X = d.X ∧ (MouseButtonUp.mk d).Y = d.Y
        ∧ (MouseButtonUp.mk d).Button = d.Button
        ∧ (MouseButtonUp.mk d).Pressure = d.Pressure
        ∧ (MouseButtonUp.mk d).toMouseButtonDown = d)
    ∧ (∀ u : MouseButtonUp, MouseButtonUp.mk u.toMouseButtonDown = u)
    ∧ (∀ d : MouseEnter, (MouseLeave.mk d).X = d.X ∧ (MouseLeave.mk d).Y = d.Y
        ∧ (MouseLeave.mk d).toMouseEnter = d)
    ∧ (∀ u : MouseLeave, MouseLeave.mk u.toMouseEnter = u)
    ∧ (∀ d : TouchMove, (TouchEnd.mk d).ID = d.ID ∧ (TouchEnd.mk d).X = d.X
        ∧ (TouchEnd.mk d).Y = d.Y ∧ (TouchEnd.mk d).DeltaX = d.DeltaX
        ∧ (TouchEnd.mk d).DeltaY = d.DeltaY ∧ (TouchEnd.mk d).Pressure = d.Pressure
        ∧ (TouchEnd.mk d).Primary = d.Primary ∧ (TouchEnd.mk d).toTouchMove = d)
    ∧ (∀ u : TouchEnd, TouchEnd.mk u.toTouchMove = u) := by
  refine ⟨fun _ => ⟨rfl, rfl, rfl⟩, fun _ => rfl, fun _ => ⟨rfl, rfl, rfl, rfl⟩, fun _ => rfl,
    fun _ => ⟨rfl, rfl, rfl, rfl, rfl⟩, fun _ => rfl, fun _ => ⟨rfl, rfl, rfl⟩, fun _ => rfl,
    fun _ => ⟨rfl, rfl, rfl, rfl, rfl, rfl, rfl, rfl⟩, fun _ => rfl⟩

/-- C8, as stated, fails: `touchEndA` and `touchEndB` agree on `ID`, `X`, `Y`, `Pressure`
and `Primary` and are different records. -/
theorem TouchEnd_five_fields_not_enough :
    touchEndA.ID = touchEndB.ID ∧ touchEndA.X = touchEndB.X ∧ touchEndA.Y = touchEndB.Y
      ∧ touchEndA.Pressure = touchEndB.Pressure ∧ touchEndA.Primary = touchEndB.Primary
      ∧ touchEndA ≠ touchEndB := by
  decide

/-- C8, amended: a `TouchEnd` record consists of the fields of `TouchMove`: two `TouchEnd`
records are equal exactly when they agree on `ID`, `X`, `Y`, `DeltaX`, `DeltaY`, `Pressure`
and `Primary`. -/
theorem TouchEnd_fields (a b : TouchEnd) :
    a = b ↔ (a.ID = b.ID ∧ a.X = b.X ∧ a.Y = b.Y ∧ a.DeltaX = b.DeltaX
      ∧ a.DeltaY = b.DeltaY ∧ a.Pressure = b.Pressure ∧ a.Primary = b.Primary) := by
  constructor
  · rintro rfl
    exact ⟨rfl, rfl, rfl, rfl, rfl, rfl, rfl⟩
  · obtain ⟨⟨a1, a2, a3, a4, a5, a6, a7⟩⟩ := a
    obtain ⟨⟨b1, b2, b3, b4, b5, b6, b7⟩⟩ := b
    rintro ⟨h1, h2, h3, h4, h5, h6, h7⟩
    simp only at h1 h2 h3 h4 h5 h6 h7
    subst h1 h2 h3 h4 h5 h6 h7
    rfl

end event
